import Mathlib

/-!
Verification development for the stockwatcher program (stockwatcher.go).

The program is embedded shallowly: Go maps become association lists whose
lookups default to the zero value (as Go map reads do), float64 prices become
rationals, and the I/O performed by one poll cycle is abstracted into a
per-symbol response delivered by the environment.  Paths on which the Go code
calls log.Fatalln or os.Exit, or panics, are modelled by the value none
("the process terminated"); paths that return normally produce some value.
-/

namespace StockWatcher

/-- Decimal digit test, as the regexp class backslash-d ([0-9]) used at
stockwatcher.go:40. -/
def isDigit (c : Char) : Bool := decide ('0' ≤ c) && decide (c ≤ '9')

/-- Numeric value of a digit character. -/
def digitVal (c : Char) : Nat := c.toNat - '0'.toNat

/-- Value of a string of decimal digits, most significant first. -/
def natOfDigits (cs : List Char) : Nat := cs.foldl (fun a c => 10 * a + digitVal c) 0

/-- Candidate positions for the literal dot of the pattern at
stockwatcher.go:40, anchored at position 0: position j can be the dot of a
complete match exactly when at least one character (matched by the
dot-plus part, hence not a newline) stands between position 0 and j, and two
digits follow j inside the string. -/
def okJ (cs : List Char) (j : Nat) : Bool :=
  decide (2 ≤ j) && decide (j + 2 < cs.length) && (cs.getD j ' ' == '.')
    && isDigit (cs.getD (j + 1) ' ') && isDigit (cs.getD (j + 2) ' ')
    && ((cs.take j).drop 1).all (fun c => !(c == '\n'))

/-- FindString of the anchored pattern at stockwatcher.go:40 on a character
list.  Go regexp uses leftmost-first (Perl) semantics, so the greedy dot-plus
places the literal dot at the largest feasible position; the empty list is
returned when there is no match, matching FindString's empty string. -/
def reFindAux (cs : List Char) : List Char :=
  match cs with
  | [] => []
  | c0 :: _ =>
    if isDigit c0 then
      (((List.range cs.length).reverse.find? (okJ cs)).map
        (fun j => cs.take (j + 3))).getD []
    else []

/-- FindString of the compiled pattern re (stockwatcher.go:40) on a string. -/
def reFindString (s : String) : String := String.mk (reFindAux s.data)

/-- Model of strconv.ParseFloat on the character level, restricted to plain
decimal forms (optional sign, integer digits, optional fractional part): these
are the only shapes reachable from re.FindString output in this program, which
is empty or digit-led, so the exponent, hex, infinity and NaN forms of
ParseFloat are never exercised and are parsed as failures here.  The exact
rational value is returned; binary float64 rounding is not modelled.
parseMagnitude parses the unsigned part: integer digits, then optionally a
dot and fractional digits, with nothing left over. -/
def parseMagnitude (cs1 : List Char) : Option Rat :=
  if (cs1.dropWhile isDigit).isEmpty then
    (if (cs1.takeWhile isDigit).isEmpty then none
     else some ((natOfDigits (cs1.takeWhile isDigit) : Rat)))
  else if (cs1.dropWhile isDigit).headD ' ' == '.' then
    (if (((cs1.dropWhile isDigit).tail).dropWhile isDigit).isEmpty then
       (if (cs1.takeWhile isDigit).isEmpty
           && (((cs1.dropWhile isDigit).tail).takeWhile isDigit).isEmpty then none
        else some ((natOfDigits (cs1.takeWhile isDigit) : Rat)
          + (natOfDigits (((cs1.dropWhile isDigit).tail).takeWhile isDigit) : Rat)
            / (10 : Rat) ^ (((cs1.dropWhile isDigit).tail).takeWhile isDigit).length))
     else none)
  else none

/-- Sign handling of the ParseFloat model: an optional leading minus or plus
before the magnitude. -/
def convertAux (cs : List Char) : Option Rat :=
  if cs.headD ' ' == '-' then (parseMagnitude cs.tail).map (fun x => -x)
  else if cs.headD ' ' == '+' then parseMagnitude cs.tail
  else parseMagnitude cs

/-- convertPrice (stockwatcher.go:144-151): ParseFloat the given string; on a
parse error the Go code calls log.Fatalln and os.Exit(1), modelled as none
(process terminated), never as a recoverable error. -/
def convertPrice (p : String) : Option Rat := convertAux p.data

/-- Inner Go map map[string]float64 holding the keys "previous" and
"current" for one symbol. -/
abbrev Inner := List (String × Rat)

/-- The quotes field of the stockwatcher struct (stockwatcher.go:91), a Go
map map[string]map[string]float64. -/
abbrev Quotes := List (String × Inner)

/-- Read of an inner Go map: a missing key yields the zero value 0.0. -/
def getF (m : Inner) (key : String) : Rat :=
  ((m.find? (fun e => e.1 == key)).map Prod.snd).getD 0

/-- Read of the outer Go map: a missing symbol yields the nil map, whose
reads in turn yield 0.0. -/
def getQ (q : Quotes) (s : String) : Inner :=
  ((q.find? (fun e => e.1 == s)).map Prod.snd).getD []

/-- Comma-ok presence test on the outer map, as used by add
(stockwatcher.go:109). -/
def containsKey (q : Quotes) (s : String) : Bool :=
  (q.find? (fun e => e.1 == s)).isSome

/-- Key set of the outer map (Go: range over t.quotes). -/
def mapKeys (q : Quotes) : List String := q.map Prod.fst

/-- Go map assignment m[k] = v: replaces any existing binding of k. -/
def mapSet (q : Quotes) (s : String) (v : Inner) : Quotes :=
  (s, v) :: q.filter (fun e => !(e.1 == s))

/-- NewStockWatcher (stockwatcher.go:97-103): the quotes map starts empty. -/
def NewStockWatcher : Quotes := []

/-- add (stockwatcher.go:106-112): inserts the symbol with an empty inner map
if absent, otherwise leaves the map unchanged. -/
def add (q : Quotes) (symbol : String) : Quotes :=
  if containsKey q symbol then q else (symbol, []) :: q

/-- updateStock (stockwatcher.go:115-122): replaces the symbol's inner map by
one binding "previous" to the value "current" held immediately before the
call and "current" to the new price.  A Go map read of an absent symbol gives
the nil map, so an unregistered symbol reads previous as 0.0 and is silently
inserted. -/
def updateStock (q : Quotes) (symbol : String) (price : Rat) : Quotes :=
  mapSet q symbol [("previous", getF (getQ q symbol) "current"), ("current", price)]

/-- Reading t.quotes[s]["current"]. -/
def currentOf (q : Quotes) (s : String) : Rat := getF (getQ q s) "current"

/-- Reading t.quotes[s]["previous"]. -/
def previousOf (q : Quotes) (s : String) : Rat := getF (getQ q s) "previous"

/-- The two response fields the program consumes from one resource of the
remote payload (stockwatcher.go:79-87): the echoed symbol and the raw price
string. -/
structure Fields where
  symbol : String
  price : String

/-- What the environment delivers for one symbol's HTTP query: a transport
failure or timeout (client.Get error), a body that fails JSON decoding, or a
decoded list of resources. -/
inductive Response
  | netFail
  | decodeErr
  | payload (resources : List Fields)

/-- Result of query (stockwatcher.go:125-141): a transport error is returned
to the caller; a JSON decode error hits log.Fatalln (process terminates,
modelled as fatal); otherwise the decoded resources are returned. -/
inductive QueryResult
  | fatal
  | err
  | ok (resources : List Fields)

/-- query (stockwatcher.go:125-141) as a function of the environment's
response. -/
def query : Response → QueryResult
  | .netFail => .err
  | .decodeErr => .fatal
  | .payload rs => .ok rs

/-- Body of the per-symbol goroutine in runner (stockwatcher.go:158-168): on
a query error the queried symbol is updated to 0.00 and the cycle goes on; on
success the store is updated under the symbol echoed in the payload with the
converted price.  Indexing Resources[0] of an empty resource list panics, and
a price that ParseFloat rejects exits the process; both are modelled as none
(process terminated). -/
def runnerStep (q : Quotes) (k : String) (r : Response) : Option Quotes :=
  match query r with
  | .fatal => none
  | .err => some (updateStock q k 0)
  | .ok [] => none
  | .ok (f :: _) =>
    match convertPrice (reFindString f.price) with
    | none => none
    | some p => some (updateStock q f.symbol p)

/-- runner (stockwatcher.go:154-171): one poll cycle over every registered
symbol, each symbol's fetch resolved against the environment's response;
the goroutine interleaving is linearised into one pass over the key list. -/
def runner (q : Quotes) (env : String → Response) : Option Quotes :=
  (mapKeys q).foldl (fun acc k => acc.bind (fun s => runnerStep s k (env k))) (some q)

/-- Sorted key list built at the top of formatData (stockwatcher.go:176-180):
collect the map's keys and alphabetize them. -/
def sortedKeys (q : Quotes) : List String :=
  (mapKeys q).mergeSort (fun a b => decide (a ≤ b))

/-- Snapshot rendered by formatData: the (symbol, entry) pairs read in
ascending symbol order. -/
def snapshot (q : Quotes) : List (String × Inner) :=
  (sortedKeys q).map (fun k => (k, getQ q k))

/-- Display state assigned to one entry by formatData's branches. -/
inductive DisplayState
  | flat
  | up (ratio : Rat)
  | down (ratio : Rat)
deriving DecidableEq

/-- Branch structure of formatData (stockwatcher.go:183-210) for one entry:
neutral row when previous is 0.00 or equals current; otherwise the green row
with the figure current/previous and the up arrow when current exceeds
previous; otherwise the red row with the same figure and the down arrow. -/
def displayState (m : Inner) : DisplayState :=
  if getF m "previous" = 0 ∨ getF m "previous" = getF m "current" then .flat
  else if getF m "previous" < getF m "current" then
    .up (getF m "current" / getF m "previous")
  else .down (getF m "current" / getF m "previous")

/-- CLI state at startup: how many flags were explicitly set, and the values
of the two flag variables (stockwatcher.go:44-47). -/
structure Config where
  nFlags : Nat
  symbolFlag : String
  intervalFlag : Int

/-- Declared default of the interval flag (stockwatcher.go:46). -/
def intervalDefault : Int := 1

/-- The guard at the top of main (stockwatcher.go:227-230): usage is printed
and the process exits with code 1 exactly when fewer or more than two flags
were set or the symbol flag is empty. -/
def startupExits (c : Config) : Bool :=
  !(c.nFlags == 2) || (c.symbolFlag == "")

theorem find_filter_ne (q : Quotes) (s k : String) (h : k ≠ s) :
    (q.filter (fun e => !(e.1 == s))).find? (fun e => e.1 == k)
      = q.find? (fun e => e.1 == k) := by
  induction q with
  | nil => rfl
  | cons e t ih =>
    by_cases hes : e.1 = s
    · have h1 : (e.1 == s) = true := by simp [hes]
      have h2 : (e.1 == k) = false := by
        simp only [beq_eq_false_iff_ne]
        exact fun hh => h (hh ▸ hes)
      simp [List.filter_cons, h1, List.find?_cons, h2, ih]
    · have h1 : (e.1 == s) = false := by simp [hes]
      by_cases hek : e.1 = k
      · have h2 : (e.1 == k) = true := by simp [hek]
        simp [List.filter_cons, h1, List.find?_cons, h2]
      · have h2 : (e.1 == k) = false := by simp [hek]
        simp [List.filter_cons, h1, List.find?_cons, h2, ih]

theorem getQ_mapSet_self (q : Quotes) (s : String) (v : Inner) :
    getQ (mapSet q s v) s = v := by
  unfold getQ mapSet
  rw [List.find?_cons_of_pos _ (by simp)]
  rfl

theorem getQ_mapSet_ne (q : Quotes) (s k : String) (v : Inner) (h : k ≠ s) :
    getQ (mapSet q s v) k = getQ q k := by
  unfold getQ mapSet
  rw [List.find?_cons_of_neg _ (by simp; exact fun hh => h hh.symm),
    find_filter_ne q s k h]

theorem getQ_updateStock_self (q : Quotes) (s : String) (p : Rat) :
    getQ (updateStock q s p) s = [("previous", currentOf q s), ("current", p)] :=
  getQ_mapSet_self q s _

theorem getQ_updateStock_ne (q : Quotes) (s k : String) (p : Rat) (h : k ≠ s) :
    getQ (updateStock q s p) k = getQ q k :=
  getQ_mapSet_ne q s k _ h

theorem currentOf_updateStock_self (q : Quotes) (s : String) (p : Rat) :
    currentOf (updateStock q s p) s = p := by
  show getF (getQ (updateStock q s p) s) "current" = p
  rw [getQ_updateStock_self]
  rfl

theorem previousOf_updateStock_self (q : Quotes) (s : String) (p : Rat) :
    previousOf (updateStock q s p) s = currentOf q s := by
  show getF (getQ (updateStock q s p) s) "previous" = currentOf q s
  rw [getQ_updateStock_self]
  rfl

theorem currentOf_updateStock_ne (q : Quotes) (s k : String) (p : Rat) (h : k ≠ s) :
    currentOf (updateStock q s p) k = currentOf q k := by
  show getF (getQ (updateStock q s p) k) "current" = getF (getQ q k) "current"
  rw [getQ_updateStock_ne q s k p h]

theorem containsKey_iff (q : Quotes) (k : String) :
    containsKey q k = true ↔ k ∈ mapKeys q := by
  unfold containsKey mapKeys
  rw [List.find?_isSome]
  constructor
  · rintro ⟨e, he, hpe⟩
    have h1 : e.1 = k := by simpa using hpe
    exact h1 ▸ List.mem_map_of_mem Prod.fst he
  · intro hk
    rcases List.mem_map.mp hk with ⟨e, he, rfl⟩
    exact ⟨e, he, by simp⟩

theorem runner_fold_netFail (ks : List String) (env : String → Response)
    (h : ∀ k ∈ ks, env k = Response.netFail) (acc : Quotes) :
    ∃ q', ks.foldl (fun a k => a.bind (fun s => runnerStep s k (env k))) (some acc)
        = some q' ∧
      (∀ k ∈ ks, currentOf q' k = 0) ∧ (∀ k, k ∉ ks → getQ q' k = getQ acc k) := by
  induction ks generalizing acc with
  | nil => exact ⟨acc, rfl, by simp, fun k _ => rfl⟩
  | cons k ks ih =>
    have hk : env k = Response.netFail := h k (List.mem_cons_self k ks)
    obtain ⟨q', hfold, hcur, hrest⟩ :=
      ih (fun k' hk' => h k' (List.mem_cons_of_mem _ hk')) (updateStock acc k 0)
    refine ⟨q', ?_, ?_, ?_⟩
    · rw [List.foldl_cons,
        show (some acc).bind (fun s => runnerStep s k (env k))
          = some (updateStock acc k 0) by rw [hk]; rfl]
      exact hfold
    · intro k' hk'
      rcases List.mem_cons.mp hk' with rfl | hmem
      · by_cases hin : k' ∈ ks
        · exact hcur k' hin
        · show getF (getQ q' k') "current" = 0
          rw [hrest k' hin]
          exact currentOf_updateStock_self acc k' 0
      · exact hcur k' hmem
    · intro k' hk'
      have h1 : k' ≠ k := fun e => hk' (e ▸ List.mem_cons_self k ks)
      have h2 : k' ∉ ks := fun m => hk' (List.mem_cons_of_mem _ m)
      rw [hrest k' h2, getQ_updateStock_ne acc k k' 0 h1]

/-- C1 counterexample: with the store registered for TSLA and the remote
answering with a well-formed payload whose raw price field is "N/A" (which
matches no leading digits-dot-two-digits pattern), the poll cycle terminates
the whole process (none) instead of producing a FetchError result that the
cycle absorbs. -/
theorem c1_counterexample :
    runner (add NewStockWatcher "TSLA") (fun _ => Response.payload [⟨"TSLA", "N/A"⟩])
      = none := rfl

/-- C1 amended: a network failure or timeout on a single-symbol fetch is
returned as an error and absorbed by the cycle as an update to 0.0, but a
malformed payload (JSON decode error, or an empty resource list) and a
missing or unparseable price field terminate the whole process. -/
theorem c1_amended (q : Quotes) (k : String) :
    runnerStep q k Response.netFail = some (updateStock q k 0) ∧
    runnerStep q k Response.decodeErr = none ∧
    runnerStep q k (Response.payload []) = none ∧
    ∀ (f : Fields) (rest : List Fields), convertPrice (reFindString f.price) = none →
      runnerStep q k (Response.payload (f :: rest)) = none := by
  refine ⟨rfl, rfl, rfl, fun f rest hf => ?_⟩
  show (match convertPrice (reFindString f.price) with
        | none => none
        | some p => some (updateStock q f.symbol p)) = none
  rw [hf]

/-- C1 witness: the amended statement at a concrete store and payload. -/
theorem c1_witness :
    runnerStep NewStockWatcher "A" Response.netFail
      = some (updateStock NewStockWatcher "A" 0) ∧
    runnerStep NewStockWatcher "A" (Response.payload [⟨"A", "N/A"⟩]) = none :=
  ⟨(c1_amended NewStockWatcher "A").1,
   (c1_amended NewStockWatcher "A").2.2.2 ⟨"A", "N/A"⟩ [] (by decide)⟩

/-- C2 counterexample: updating the symbol "A" on the empty store, where "A"
is not registered, produces no error at all: it modifies the store, silently
creating the entry with previous 0.0 and current 5.0. -/
theorem c2_counterexample :
    containsKey NewStockWatcher "A" = false ∧
    updateStock NewStockWatcher "A" 5 = [("A", [("previous", 0), ("current", 5)])] ∧
    updateStock NewStockWatcher "A" 5 ≠ NewStockWatcher :=
  ⟨rfl, rfl, by decide⟩

/-- C2 amended: update of an unregistered symbol does not fail with an
InvariantViolation; the Go map read of the absent symbol yields the nil map,
so the symbol is silently registered with previous 0.0 and current p. -/
theorem c2_amended (q : Quotes) (s : String) (p : Rat)
    (h : containsKey q s = false) :
    containsKey (updateStock q s p) s = true ∧
    getQ (updateStock q s p) s = [("previous", 0), ("current", p)] := by
  have hq : getQ q s = [] := by
    unfold containsKey at h
    unfold getQ
    rcases hf : q.find? (fun e => e.1 == s) with _ | e
    · rw [hf]
      rfl
    · rw [hf] at h
      simp at h
  constructor
  · unfold containsKey updateStock mapSet
    rw [List.find?_cons_of_pos _ (by simp)]
    rfl
  · show getQ (mapSet q s [("previous", getF (getQ q s) "current"), ("current", p)]) s
      = [("previous", 0), ("current", p)]
    rw [getQ_mapSet_self, hq]
    rfl

/-- C2 witness: the amended statement at the empty store. -/
theorem c2_witness :
    containsKey (updateStock NewStockWatcher "A" 5) "A" = true ∧
    getQ (updateStock NewStockWatcher "A" 5) "A" = [("previous", 0), ("current", 5)] :=
  c2_amended NewStockWatcher "A" 5 (by decide)

/-- C3 counterexample: a command line that sets only the symbol flag (one
flag set, non-empty symbol list, interval left at its declared default 1)
makes main print usage and exit non-zero, because main demands that exactly
two flags be set; the claim said this configuration starts the loop. -/
theorem c3_counterexample :
    startupExits { nFlags := 1, symbolFlag := "AAPL", intervalFlag := intervalDefault }
      = true := by decide

/-- C3 amended: a missing or empty symbol list is a fatal configuration
error with usage guidance and a non-zero exit, and the interval flag's
declared default is 1; but the interval flag is not optional in practice:
the loop starts exactly when two flags are set and the symbol flag is
non-empty, so providing only the symbol list also exits with usage. -/
theorem c3_amended :
    intervalDefault = 1 ∧
    ∀ c : Config, startupExits c = false ↔ (c.nFlags = 2 ∧ c.symbolFlag ≠ "") := by
  refine ⟨rfl, fun c => ?_⟩
  unfold startupExits
  simp

/-- C4: after update(s, p) the entry for s has current p and previous equal
to the value current held immediately before the call; replaying
update(s, 5.0) then update(s, 7.0) from a freshly registered s yields the
entry with previous 5.0 and current 7.0. -/
theorem c4_update_semantics :
    (∀ (q : Quotes) (s : String) (p : Rat),
        currentOf (updateStock q s p) s = p ∧
        previousOf (updateStock q s p) s = currentOf q s) ∧
    getQ (updateStock (updateStock (add NewStockWatcher "s") "s" 5) "s" 7) "s"
      = [("previous", 5), ("current", 7)] :=
  ⟨fun q s p => ⟨currentOf_updateStock_self q s p, previousOf_updateStock_self q s p⟩,
   rfl⟩

/-- C6: formatData assigns exactly one display state per entry, in case
order: Flat when previous is 0.0 or previous equals current; Up with the
figure current/previous when current exceeds previous (and the entry is not
Flat); Down with the figure current/previous when current is below previous
and previous is non-zero; and the displayed figure is the raw ratio
current/previous, which never coincides with the percent delta
(current - previous)/previous. -/
theorem c6_display_states (m : Inner) :
    (getF m "previous" = 0 ∨ getF m "previous" = getF m "current" →
        displayState m = DisplayState.flat) ∧
    (getF m "previous" ≠ 0 → getF m "current" > getF m "previous" →
        displayState m = DisplayState.up (getF m "current" / getF m "previous")) ∧
    (getF m "previous" ≠ 0 → getF m "current" < getF m "previous" →
        displayState m = DisplayState.down (getF m "current" / getF m "previous")) ∧
    (getF m "previous" ≠ 0 →
        getF m "current" / getF m "previous"
          ≠ (getF m "current" - getF m "previous") / getF m "previous") := by
  refine ⟨?_, ?_, ?_, ?_⟩
  · intro h
    unfold displayState
    rw [if_pos h]
  · intro hp hgt
    unfold displayState
    rw [if_neg (by rintro (h | h); exacts [hp h, absurd h (ne_of_gt hgt).symm]),
      if_pos hgt]
  · intro hp hlt
    unfold displayState
    rw [if_neg (by rintro (h | h); exacts [hp h, absurd h.symm (ne_of_lt hlt)]),
      if_neg (lt_asymm hlt)]
  · intro hp h
    rw [div_eq_div_iff hp hp] at h
    have h2 := mul_right_cancel₀ hp h
    have : getF m "previous" = 0 := by linarith
    exact hp this

/-- C6 witness: an entry with previous 100 and current 110 is Up with ratio
110/100, and one with previous 110 and current 100 is Down with ratio
100/110. -/
theorem c6_witness :
    displayState [("previous", (100 : Rat)), ("current", 110)]
      = DisplayState.up ((110 : Rat) / 100) ∧
    displayState [("previous", (110 : Rat)), ("current", 100)]
      = DisplayState.down ((100 : Rat) / 110) :=
  ⟨(c6_display_states [("previous", (100 : Rat)), ("current", 110)]).2.1
      (by decide) (by decide),
   (c6_display_states [("previous", (110 : Rat)), ("current", 100)]).2.2.1
      (by decide) (by decide)⟩

/-- C7 counterexample: a cycle over the single registered symbol GOOG in
which that symbol's fetch fails because the echoed price field "n/a" is
unparseable does not call update(symbol, 0.0) and does not complete: the
process terminates (none). -/
theorem c7_counterexample :
    runner (add NewStockWatcher "GOOG") (fun _ => Response.payload [⟨"GOOG", "n/a"⟩])
      = none := rfl

/-- C7 amended: for every symbol whose remote query fails at the transport
level (network failure or timeout), the cycle calls update(symbol, 0.0)
rather than skipping it, and a cycle in which every query so fails still
completes successfully with every registered entry's current set to 0.0;
fetches that fail at the decode or price-parse stage instead terminate the
process. -/
theorem c7_amended (q : Quotes) (env : String → Response)
    (h : ∀ k ∈ mapKeys q, env k = Response.netFail) :
    (∀ (q₀ : Quotes) (k : String),
        runnerStep q₀ k Response.netFail = some (updateStock q₀ k 0)) ∧
    ∃ q', runner q env = some q' ∧ ∀ k ∈ mapKeys q, currentOf q' k = 0 := by
  refine ⟨fun q₀ k => rfl, ?_⟩
  obtain ⟨q', h1, h2, _⟩ := runner_fold_netFail (mapKeys q) env h q
  exact ⟨q', h1, h2⟩

/-- C7 witness: the amended statement for a two-symbol store with every
query failing at the transport level. -/
theorem c7_witness :
    (∀ (q₀ : Quotes) (k : String),
        runnerStep q₀ k Response.netFail = some (updateStock q₀ k 0)) ∧
    ∃ q', runner (add (add NewStockWatcher "A") "B") (fun _ => Response.netFail)
        = some q' ∧
      ∀ k ∈ mapKeys (add (add NewStockWatcher "A") "B"), currentOf q' k = 0 :=
  c7_amended (add (add NewStockWatcher "A") "B") (fun _ => Response.netFail)
    (fun _ _ => rfl)

/-- C9: updates of two distinct symbols commute (the resulting stores are
extensionally equal), and an update leaves every entry other than its own
symbol's unchanged, so the final store state of a cycle does not depend on
fetch completion order. -/
theorem c9_update_commutes (q : Quotes) (s1 s2 k : String) (p1 p2 : Rat)
    (h : s1 ≠ s2) :
    getQ (updateStock (updateStock q s1 p1) s2 p2) k
      = getQ (updateStock (updateStock q s2 p2) s1 p1) k ∧
    (k ≠ s1 → getQ (updateStock q s1 p1) k = getQ q k) := by
  refine ⟨?_, fun hk => getQ_updateStock_ne q s1 k p1 hk⟩
  by_cases hk2 : k = s2
  · subst hk2
    rw [getQ_updateStock_self, currentOf_updateStock_ne q s1 k p1 (Ne.symm h),
      getQ_updateStock_ne _ s1 k p1 (Ne.symm h), getQ_updateStock_self]
  · by_cases hk1 : k = s1
    · subst hk1
      rw [getQ_updateStock_ne _ s2 k p2 hk2, getQ_updateStock_self,
        getQ_updateStock_self, currentOf_updateStock_ne q s2 k p2 hk2]
    · rw [getQ_updateStock_ne _ s2 k p2 hk2, getQ_updateStock_ne q s1 k p1 hk1,
        getQ_updateStock_ne _ s1 k p1 hk1, getQ_updateStock_ne q s2 k p2 hk2]

/-- C9 witness: the commutation and frame conditions at concrete symbols. -/
theorem c9_witness :
    getQ (updateStock (updateStock NewStockWatcher "A" 1) "B" 2) "C"
      = getQ (updateStock (updateStock NewStockWatcher "B" 2) "A" 1) "C" ∧
    getQ (updateStock NewStockWatcher "A" 1) "C" = getQ NewStockWatcher "C" :=
  ⟨(c9_update_commutes NewStockWatcher "A" "B" "C" 1 2 (by decide)).1,
   (c9_update_commutes NewStockWatcher "A" "B" "C" 1 2 (by decide)).2 (by decide)⟩

/-- C8: with duplicate-free keys (true of every store the program builds),
snapshotting twice with no intervening update yields equal sequences, the
snapshot lists symbols in strictly ascending order, and each registered
symbol occurs exactly once. -/
theorem c8_snapshot (q : Quotes) (h : (mapKeys q).Nodup) :
    snapshot q = snapshot q ∧
    ((snapshot q).map Prod.fst).Sorted (· < ·) ∧
    ∀ k : String, containsKey q k = true → ((snapshot q).map Prod.fst).count k = 1 := by
  have hfst : (snapshot q).map Prod.fst = sortedKeys q := by
    unfold snapshot
    rw [List.map_map, show (Prod.fst ∘ fun k : String => (k, getQ q k)) = id from rfl,
      List.map_id]
  have hperm : (sortedKeys q).Perm (mapKeys q) := List.mergeSort_perm _ _
  have hnd : (sortedKeys q).Nodup := hperm.symm.nodup h
  have htrans : ∀ a b c : String, (decide (a ≤ b)) = true → (decide (b ≤ c)) = true →
      (decide (a ≤ c)) = true := by
    intro a b c hab hbc
    simp only [decide_eq_true_eq] at hab hbc ⊢
    exact le_trans hab hbc
  have htotal : ∀ a b : String, ((decide (a ≤ b)) || (decide (b ≤ a))) = true := by
    intro a b
    simpa using le_total a b
  have hs := List.sorted_mergeSort htrans htotal (mapKeys q)
  have hsle : (sortedKeys q).Sorted (· ≤ ·) := by
    unfold sortedKeys
    exact hs.imp (fun hab => by simpa using hab)
  refine ⟨rfl, ?_, ?_⟩
  · rw [hfst]
    exact hsle.lt_of_le hnd
  · intro k hk
    rw [hfst]
    exact List.count_eq_one_of_mem hnd (hperm.mem_iff.mpr ((containsKey_iff q k).mp hk))

/-- C8 witness: the snapshot properties at a concrete two-symbol store. -/
theorem c8_witness :
    snapshot (add (add NewStockWatcher "IBM") "AAPL")
      = snapshot (add (add NewStockWatcher "IBM") "AAPL") ∧
    ((snapshot (add (add NewStockWatcher "IBM") "AAPL")).map Prod.fst).Sorted (· < ·) ∧
    ((snapshot (add (add NewStockWatcher "IBM") "AAPL")).map Prod.fst).count "AAPL" = 1 := by
  obtain ⟨h1, h2, h3⟩ := c8_snapshot (add (add NewStockWatcher "IBM") "AAPL") (by decide)
  exact ⟨h1, h2, h3 "AAPL" (by decide)⟩

theorem mapKeys_updateStock (q : Quotes) (s : String) (p : Rat) :
    mapKeys (updateStock q s p)
      = s :: (q.filter (fun e => !(e.1 == s))).map Prod.fst := rfl

/-- C10: a successful fetch updates the store under the symbol string echoed
in the remote payload, not under the queried symbol: with only k registered
and the remote echoing a different symbol e with a parseable price, the
cycle leaves k's entry unchanged and creates a fresh entry under e, growing
the store beyond the configured symbol set. -/
theorem c10_echoed_symbol (k e pr : String) (v : Rat)
    (hne : e ≠ k) (hv : convertPrice (reFindString pr) = some v) :
    runner (add NewStockWatcher k) (fun _ => Response.payload [⟨e, pr⟩])
      = some (updateStock (add NewStockWatcher k) e v) ∧
    getQ (updateStock (add NewStockWatcher k) e v) k = getQ (add NewStockWatcher k) k ∧
    containsKey (add NewStockWatcher k) e = false ∧
    containsKey (updateStock (add NewStockWatcher k) e v) e = true ∧
    currentOf (updateStock (add NewStockWatcher k) e v) e = v ∧
    mapKeys (updateStock (add NewStockWatcher k) e v) = [e, k] := by
  have hke : (k == e) = false := by
    simp only [beq_eq_false_iff_ne]
    exact Ne.symm hne
  refine ⟨?_, getQ_updateStock_ne _ e k v (Ne.symm hne), ?_, ?_,
    currentOf_updateStock_self _ e v, ?_⟩
  · show (match convertPrice (reFindString pr) with
      | none => none
      | some p => some (updateStock (add NewStockWatcher k) e p))
      = some (updateStock (add NewStockWatcher k) e v)
    rw [hv]
  · show ((([(k, [])] : Quotes).find? (fun x => x.1 == e)).isSome) = false
    rw [List.find?_cons_of_neg _
      (by show ¬(k == e) = true; rw [hke]; exact Bool.false_ne_true)]
    rfl
  · unfold containsKey updateStock mapSet
    rw [List.find?_cons_of_pos _ (by simp)]
    rfl
  · rw [mapKeys_updateStock]
    rw [show (add NewStockWatcher k) = ([(k, [])] : Quotes) from rfl]
    rw [show (([(k, [])] : Quotes).filter (fun e' => !(e'.1 == e))) = [(k, [])] by
      simp [List.filter_cons, hke]]
    rfl

/-- C10 witness: querying the lowercase symbol while the remote echoes the
uppercase one with raw price "123.45"; the parsed value appears under the
echoed symbol and the queried entry is untouched. -/
theorem c10_witness :
    runner (add NewStockWatcher "ibm") (fun _ => Response.payload [⟨"IBM", "123.45"⟩])
      = some (updateStock (add NewStockWatcher "ibm") "IBM"
          ((natOfDigits ['1', '2', '3'] : Rat)
            + (natOfDigits ['4', '5'] : Rat) / (10 : Rat) ^ 2)) ∧
    getQ (updateStock (add NewStockWatcher "ibm") "IBM"
          ((natOfDigits ['1', '2', '3'] : Rat)
            + (natOfDigits ['4', '5'] : Rat) / (10 : Rat) ^ 2)) "ibm"
      = getQ (add NewStockWatcher "ibm") "ibm" ∧
    containsKey (add NewStockWatcher "ibm") "IBM" = false ∧
    containsKey (updateStock (add NewStockWatcher "ibm") "IBM"
          ((natOfDigits ['1', '2', '3'] : Rat)
            + (natOfDigits ['4', '5'] : Rat) / (10 : Rat) ^ 2)) "IBM" = true ∧
    currentOf (updateStock (add NewStockWatcher "ibm") "IBM"
          ((natOfDigits ['1', '2', '3'] : Rat)
            + (natOfDigits ['4', '5'] : Rat) / (10 : Rat) ^ 2)) "IBM"
      = (natOfDigits ['1', '2', '3'] : Rat)
          + (natOfDigits ['4', '5'] : Rat) / (10 : Rat) ^ 2 ∧
    mapKeys (updateStock (add NewStockWatcher "ibm") "IBM"
          ((natOfDigits ['1', '2', '3'] : Rat)
            + (natOfDigits ['4', '5'] : Rat) / (10 : Rat) ^ 2)) = ["IBM", "ibm"] :=
  c10_echoed_symbol "ibm" "IBM" "123.45"
    ((natOfDigits ['1', '2', '3'] : Rat)
      + (natOfDigits ['4', '5'] : Rat) / (10 : Rat) ^ 2)
    (by decide) rfl

theorem isDigit_ne (c d : Char) (h : isDigit c = true) (hd : isDigit d = false) :
    c ≠ d := by
  intro e
  subst e
  rw [h] at hd
  exact Bool.noConfusion hd

theorem find?_unique {p : Nat → Bool} {m : Nat} :
    ∀ l : List Nat, m ∈ l → (∀ x ∈ l, p x = true ↔ x = m) → l.find? p = some m := by
  intro l
  induction l with
  | nil => intro h; exact absurd h (List.not_mem_nil m)
  | cons a t ih =>
    intro hm hp
    by_cases hpa : p a = true
    · have ham : a = m := (hp a (List.mem_cons_self a t)).mp hpa
      rw [List.find?_cons_of_pos _ hpa, ham]
    · rw [List.find?_cons_of_neg _ hpa]
      have hmt : m ∈ t := by
        rcases List.mem_cons.mp hm with rfl | hmem
        · exact absurd ((hp m (List.mem_cons_self m t)).mpr rfl) hpa
        · exact hmem
      exact ih hmt (fun x hx => hp x (List.mem_cons_of_mem a hx))

theorem okJ_char (I r : List Char) (a b : Char)
    (hI : I.all isDigit = true) (hlen : 2 ≤ I.length)
    (ha : isDigit a = true) (hb : isDigit b = true) (hr : '.' ∉ r) :
    ∀ j : Nat, okJ (I ++ '.' :: a :: b :: r) j = true ↔ j = I.length := by
  intro j
  constructor
  · intro hj
    unfold okJ at hj
    simp only [Bool.and_eq_true, decide_eq_true_eq] at hj
    obtain ⟨⟨⟨⟨⟨h2, hlt⟩, hdot⟩, _⟩, _⟩, _⟩ := hj
    have hdot' : (I ++ '.' :: a :: b :: r).getD j ' ' = '.' := by simpa using hdot
    by_contra hne
    rcases Nat.lt_or_ge j I.length with hlt' | hge
    · rw [List.getD_append _ _ _ _ hlt'] at hdot'
      have hmem : I.getD j ' ' ∈ I := by
        rw [List.getD_eq_getElem _ _ hlt']
        exact List.getElem_mem hlt'
      exact isDigit_ne _ '.' (List.all_eq_true.mp hI _ hmem) (by decide) hdot'
    · have hgt : I.length < j := lt_of_le_of_ne hge (fun e => hne e.symm)
      rw [List.getD_append_right _ _ _ _ hge] at hdot'
      obtain ⟨t, ht⟩ : ∃ t, j - I.length = t + 1 := ⟨j - I.length - 1, by omega⟩
      rw [ht, List.getD_cons_succ] at hdot'
      rcases t with _ | _ | t2
      · exact isDigit_ne a '.' ha (by decide) (by simpa using hdot')
      · exact isDigit_ne b '.' hb (by decide) (by simpa using hdot')
      · rw [List.getD_cons_succ, List.getD_cons_succ] at hdot'
        by_cases hrl : t2 < r.length
        · rw [List.getD_eq_getElem _ _ hrl] at hdot'
          exact hr (hdot' ▸ List.getElem_mem hrl)
        · rw [List.getD_eq_default _ _ (by omega)] at hdot'
          exact absurd hdot' (by decide)
  · intro hj
    subst hj
    have e1 : (I ++ '.' :: a :: b :: r).getD I.length ' ' = '.' := by
      rw [List.getD_append_right _ _ _ _ (le_refl _), Nat.sub_self]
      rfl
    have e2 : (I ++ '.' :: a :: b :: r).getD (I.length + 1) ' ' = a := by
      rw [List.getD_append_right _ _ _ _ (by omega),
        show I.length + 1 - I.length = 1 by omega]
      rfl
    have e3 : (I ++ '.' :: a :: b :: r).getD (I.length + 2) ' ' = b := by
      rw [List.getD_append_right _ _ _ _ (by omega),
        show I.length + 2 - I.length = 2 by omega]
      rfl
    have e4 : ((I ++ '.' :: a :: b :: r).take I.length).drop 1 = I.drop 1 := by
      rw [List.take_left]
    unfold okJ
    simp only [Bool.and_eq_true, decide_eq_true_eq]
    refine ⟨⟨⟨⟨⟨hlen, ?_⟩, ?_⟩, ?_⟩, ?_⟩, ?_⟩
    · rw [List.length_append, List.length_cons, List.length_cons, List.length_cons]
      omega
    · rw [e1]
      rfl
    · rw [e2]
      exact ha
    · rw [e3]
      exact hb
    · rw [e4, List.all_eq_true]
      intro x hx
      have hxd : isDigit x = true :=
        List.all_eq_true.mp hI x (List.mem_of_mem_drop hx)
      simpa using isDigit_ne x '\n' hxd (by decide)

theorem take_append_three (I : List Char) (x y z : Char) (r : List Char) :
    (I ++ x :: y :: z :: r).take (I.length + 3) = I ++ [x, y, z] := by
  induction I with
  | nil => rfl
  | cons c I ih =>
    show (c :: (I ++ x :: y :: z :: r)).take (I.length + 1 + 3) = c :: (I ++ [x, y, z])
    rw [show I.length + 1 + 3 = (I.length + 3) + 1 by omega, List.take_succ_cons, ih]

theorem reFindAux_match (I r : List Char) (a b : Char)
    (hI : I.all isDigit = true) (hlen : 2 ≤ I.length)
    (ha : isDigit a = true) (hb : isDigit b = true) (hr : '.' ∉ r) :
    reFindAux (I ++ '.' :: a :: b :: r) = I ++ ['.', a, b] := by
  obtain ⟨c0, I1, rfl⟩ : ∃ c0 I1, I = c0 :: I1 := by
    rcases I with _ | ⟨c0, I1⟩
    · exact absurd hlen (by decide)
    · exact ⟨c0, I1, rfl⟩
  have hc0 : isDigit c0 = true :=
    List.all_eq_true.mp hI c0 (List.mem_cons_self c0 I1)
  have hfind : ((List.range (c0 :: (I1 ++ '.' :: a :: b :: r)).length).reverse.find?
      (okJ (c0 :: (I1 ++ '.' :: a :: b :: r)))) = some (c0 :: I1).length := by
    apply find?_unique
    · rw [List.mem_reverse, List.mem_range]
      simp [List.length_append]
    · intro x _
      exact okJ_char (c0 :: I1) r a b hI hlen ha hb hr x
  show reFindAux (c0 :: (I1 ++ '.' :: a :: b :: r)) = (c0 :: I1) ++ ['.', a, b]
  simp only [reFindAux]
  rw [if_pos hc0, hfind]
  exact take_append_three (c0 :: I1) '.' a b r

theorem takeWhile_digits_append (I : List Char) (c : Char) (l : List Char)
    (hI : I.all isDigit = true) (hc : isDigit c = false) :
    (I ++ c :: l).takeWhile isDigit = I ∧ (I ++ c :: l).dropWhile isDigit = c :: l := by
  induction I with
  | nil => simp [List.takeWhile_cons, List.dropWhile_cons, hc]
  | cons d I ih =>
    have hd : isDigit d = true := List.all_eq_true.mp hI d (List.mem_cons_self d I)
    have hI' : I.all isDigit = true := by
      rw [List.all_eq_true]
      intro x hx
      exact List.all_eq_true.mp hI x (List.mem_cons_of_mem _ hx)
    obtain ⟨h1, h2⟩ := ih hI'
    constructor
    · show ((d :: (I ++ c :: l)).takeWhile isDigit) = d :: I
      rw [List.takeWhile_cons, if_pos hd, h1]
    · show ((d :: (I ++ c :: l)).dropWhile isDigit) = c :: l
      rw [List.dropWhile_cons, if_pos hd, h2]

theorem convertAux_decimal (I : List Char) (a b : Char)
    (hI : I.all isDigit = true) (hne : I ≠ [])
    (ha : isDigit a = true) (hb : isDigit b = true) :
    convertAux (I ++ ['.', a, b])
      = some ((natOfDigits I : Rat)
          + ((10 * digitVal a + digitVal b : Nat) : Rat) / 100) := by
  obtain ⟨c0, I1, rfl⟩ := List.exists_cons_of_ne_nil hne
  have hc0 : isDigit c0 = true :=
    List.all_eq_true.mp hI c0 (List.mem_cons_self c0 I1)
  obtain ⟨ht, hd⟩ := takeWhile_digits_append (c0 :: I1) '.' [a, b] hI (by decide)
  have h1 : ([a, b].takeWhile isDigit) = [a, b] := by
    rw [List.takeWhile_cons, if_pos ha, List.takeWhile_cons, if_pos hb]
    rfl
  have h2 : ([a, b].dropWhile isDigit) = [] := by
    rw [List.dropWhile_cons, if_pos ha, List.dropWhile_cons, if_pos hb]
    rfl
  have h3 : natOfDigits [a, b] = 10 * digitVal a + digitVal b := by
    show 10 * (10 * 0 + digitVal a) + digitVal b = 10 * digitVal a + digitVal b
    omega
  unfold convertAux
  rw [if_neg (by
      show ¬((c0 :: (I1 ++ ['.', a, b])).headD ' ' == '-') = true
      simp only [List.headD_cons, beq_iff_eq]
      exact isDigit_ne c0 '-' hc0 (by decide)),
    if_neg (by
      show ¬((c0 :: (I1 ++ ['.', a, b])).headD ' ' == '+') = true
      simp only [List.headD_cons, beq_iff_eq]
      exact isDigit_ne c0 '+' hc0 (by decide))]
  unfold parseMagnitude
  rw [ht, hd]
  rw [if_neg (by simp), if_pos (by rfl)]
  rw [show (['.', a, b] : List Char).tail = [a, b] from rfl]
  rw [h2]
  rw [if_pos (show ([] : List Char).isEmpty = true from rfl)]
  rw [h1]
  rw [if_neg (by simp)]
  rw [h3]
  norm_num

/-- C5 counterexample: the raw price field "9.99" contains the leading
digits-dot-two-digits pattern, yet the compiled pattern (which demands at
least two characters before the dot) matches nothing, FindString returns the
empty string, and ParseFloat then fails, terminating the process instead of
producing 9.99. -/
theorem c5_counterexample :
    reFindString "9.99" = "" ∧ convertPrice (reFindString "9.99") = none :=
  ⟨by decide, by decide⟩

/-- C5 amended: for raw price strings whose leading pattern has at least two
characters before the decimal point and no further dot after the two
fractional digits, the fetched price is the non-negative value of the
leading portion truncated to exactly two decimal places; a single character
before the dot (such as "9.99") matches nothing and is a fatal parse
failure. -/
theorem c5_amended (I r : List Char) (a b : Char)
    (hI : I.all isDigit = true) (hlen : 2 ≤ I.length)
    (ha : isDigit a = true) (hb : isDigit b = true) (hr : '.' ∉ r) :
    reFindString (String.mk (I ++ '.' :: a :: b :: r)) = String.mk (I ++ ['.', a, b]) ∧
    convertPrice (reFindString (String.mk (I ++ '.' :: a :: b :: r)))
      = some ((natOfDigits I : Rat)
          + ((10 * digitVal a + digitVal b : Nat) : Rat) / 100) ∧
    0 ≤ (natOfDigits I : Rat) + ((10 * digitVal a + digitVal b : Nat) : Rat) / 100 := by
  have h1 : reFindAux (I ++ '.' :: a :: b :: r) = I ++ ['.', a, b] :=
    reFindAux_match I r a b hI hlen ha hb hr
  have hne : I ≠ [] := by
    intro e
    rw [e] at hlen
    exact absurd hlen (by decide)
  refine ⟨?_, ?_, ?_⟩
  · show String.mk (reFindAux (I ++ '.' :: a :: b :: r)) = _
    rw [h1]
  · show convertAux (reFindAux (I ++ '.' :: a :: b :: r)) = _
    rw [h1]
    exact convertAux_decimal I a b hI hne ha hb
  · positivity

/-- C5 witness: the amended statement at the raw field "123.4567 USD", whose
leading match is "123.45". -/
theorem c5_witness :
    reFindString (String.mk (['1', '2', '3'] ++ '.' :: '4' :: '5' :: ['6', '7', ' ', 'U', 'S', 'D']))
      = String.mk (['1', '2', '3'] ++ ['.', '4', '5']) ∧
    convertPrice (reFindString
        (String.mk (['1', '2', '3'] ++ '.' :: '4' :: '5' :: ['6', '7', ' ', 'U', 'S', 'D'])))
      = some ((natOfDigits ['1', '2', '3'] : Rat)
          + ((10 * digitVal '4' + digitVal '5' : Nat) : Rat) / 100) ∧
    0 ≤ (natOfDigits ['1', '2', '3'] : Rat)
        + ((10 * digitVal '4' + digitVal '5' : Nat) : Rat) / 100 :=
  c5_amended ['1', '2', '3'] ['6', '7', ' ', 'U', 'S', 'D'] '4' '5'
    (by decide) (by decide) (by decide) (by decide) (by decide)

end StockWatcher
